import Mathlib

/-!
Verification development for the Graph Build Coordination & Query
Orchestration subsystem (graphTools.ts and the fetchUsageCodeExamples
callback of DefaultRepoHandler.ts).

Modelling conventions:
* Timestamps are milliseconds as `Nat` (`Date.now()`); during one
  synchronous handler run the clock is a single value `now`.
  `Date.now() - entry.timestamp` is JS number subtraction; for a
  timestamp in the past it is non-negative, and for all the comparisons
  performed by this code (`> 10`, `> 20`, `>= 5`, `< 10`) a negative
  elapsed value and `0` fall on the same side, so `Nat` truncated
  subtraction is branch-equivalent.
* The creation registry (a JS `Map` keyed by `owner/repo`) is modelled
  as an association list with JS `Map` semantics: `set` replaces in
  place or appends, `delete` filters, `get` finds the first match.
* The legacy `graphCreationLocks` map is deliberately not modelled: no
  registry read in the source ever depends on it (it is written to for
  backward compatibility only), so it cannot affect any claim about
  registry contents or handler branching.
* File paths are represented by their `'/'`-segment sequences
  (`String.splitOn "/"`); every path operation in the source (the
  relative-path regex and the `split("/").slice(-2)` fallback) factors
  through that decomposition.
-/

namespace GitMcp

/-- One registry record: `{ inProgress, timestamp, phase }` as stored by
`setCreationLock` in graphTools.ts. -/
structure CreationEntry where
  inProgress : Bool
  timestamp : Nat
  phase : String
deriving Repr, DecidableEq

/-- The global creation registry: a JS `Map<string, CreationEntry>`
modelled as an association list in insertion order. -/
abbrev Registry := List (String × CreationEntry)

/-- JS `Map.get`. -/
def regGet (r : Registry) (k : String) : Option CreationEntry :=
  (r.find? (fun p => p.1 == k)).map Prod.snd

/-- JS `Map.set`: replace in place when the key is present, append
otherwise. -/
def regSet (r : Registry) (k : String) (v : CreationEntry) : Registry :=
  if (r.find? (fun p => p.1 == k)).isSome then
    r.map (fun p => if p.1 == k then (k, v) else p)
  else
    r ++ [(k, v)]

/-- JS `Map.delete`. -/
def regDelete (r : Registry) (k : String) : Registry :=
  r.filter (fun p => p.1 != k)

/-- `Math.floor((Date.now() - entry.timestamp) / (1000 * 60))`. -/
def elapsedMinutes (now ts : Nat) : Nat :=
  (now - ts) / 60000

/-- `GraphCreationService.clearStaleLocks` (registry part): delete the
record for `k` when its floored elapsed minutes exceed 10. -/
def clearStaleLocks (now : Nat) (r : Registry) (k : String) : Registry :=
  match regGet r k with
  | some e => if elapsedMinutes now e.timestamp > 10 then regDelete r k else r
  | none => r

/-- `GraphCreationService.setCreationLock`. On `status = true` the new
record keeps `existing?.timestamp || Date.now()` (JS `||`: a timestamp of
`0` is falsy and is replaced by `now`); on `status = false` the record is
deleted. -/
def setCreationLock (now : Nat) (r : Registry) (k : String) (status : Bool) : Registry :=
  if status then
    let ts : Nat :=
      match regGet r k with
      | some e => if e.timestamp = 0 then now else e.timestamp
      | none => now
    regSet r k ⟨true, ts, "Initializing analysis"⟩
  else
    regDelete r k

/-- The progress projection returned by `getCreationProgress`. -/
structure ProgressView where
  inProgress : Bool
  elapsedMinutes : Nat
  estimatedRemaining : String
  phase : String
deriving Repr, DecidableEq

/-- The "not in progress / Complete" view. -/
def notInProgressView : ProgressView :=
  ⟨false, 0, "N/A", "Complete"⟩

/-- `GraphCreationService.getCreationProgress`: returns the view and the
(possibly cleaned-up) registry — the read deletes a record whose floored
elapsed minutes exceed 20. -/
def getCreationProgress (now : Nat) (r : Registry) (k : String) :
    ProgressView × Registry :=
  match regGet r k with
  | some e =>
    if e.inProgress then
      let m := elapsedMinutes now e.timestamp
      if m > 20 then
        (notInProgressView, regDelete r k)
      else
        (⟨true, m,
          if m < 10 then "5-10 minutes" else "Should complete soon",
          if m < 10 then "Analyzing repository" else "Completing analysis"⟩, r)
    else
      (notInProgressView, r)
  | none => (notInProgressView, r)

/-- `GraphCreationService.isCreationInProgress`: in-progress check that
also evicts a record older than 20 floored minutes. -/
def isCreationInProgress (now : Nat) (r : Registry) (k : String) :
    Bool × Registry :=
  match regGet r k with
  | some e =>
    if e.inProgress then
      if elapsedMinutes now e.timestamp > 20 then (false, regDelete r k)
      else (true, r)
    else (false, r)
  | none => (false, r)

/-- Outcome of the graph-missing branch of the `fetchUsageCodeExamples`
callback: either the "Graph Creation In Progress" message built from a
progress view, or the "Starting Code Analysis" path (lock set and the
analysis request fired). -/
inductive MissingBranchOutcome where
  | progressMessage (view : ProgressView)
  | startAnalysis
deriving Repr, DecidableEq

/-- The graph-missing branch of `fetchUsageCodeExamples`
(DefaultRepoHandler.ts): FIRST `clearStaleLocks`, SECOND a force-clear of
any in-progress record whose floored elapsed minutes are at least 5
(`setCreationLock(k, false)` followed by `registry.delete(k)`), THEN the
final progress check that selects the branch; the start-analysis branch
sets the creation lock before firing the fire-and-forget request. -/
def graphMissingBranch (now : Nat) (r0 : Registry) (k : String) :
    MissingBranchOutcome × Registry :=
  let r1 := clearStaleLocks now r0 k
  let pr := getCreationProgress now r1 k
  let r2 := pr.2
  let r3 :=
    if pr.1.inProgress = true ∧ 5 ≤ pr.1.elapsedMinutes then
      regDelete (setCreationLock now r2 k false) k
    else r2
  let fin := getCreationProgress now r3 k
  if fin.1.inProgress then
    (.progressMessage fin.1, fin.2)
  else
    (.startAnalysis, setCreationLock now fin.2 k true)

/-- The advisory message returned by the `catch` around the
`Promise.race` in `fetchUsageCodeExamples`. -/
def timeoutAdvisory (functionName : String) : String :=
  "⏱️ **Search Timeout**\n\nThe search for \"" ++ functionName ++
  "\" is taking too long. Please try again.\n\n**Possible causes:**\n• Large repository analysis in progress\n• Database temporarily busy\n• Complex query processing\n\n**Try again in a moment!**"

/-- How the raced "query graph → enrich every caller" unit can settle:
it resolves with a response after `durationMs`, or it rejects after
`durationMs` (connection, query or branch failure inside the unit). -/
inductive PipelineOutcome where
  | completes (durationMs : Nat) (response : String)
  | fails (durationMs : Nat)
deriving Repr, DecidableEq

/-- `Promise.race([pipeline, 8s timer]) … catch`: the pipeline's value
wins only if it resolves before the 8000 ms timer fires; every rejection
reaching the `catch` — the timer's or the pipeline's own — yields the
advisory message. -/
def racedResult (functionName : String) (p : PipelineOutcome) : String :=
  match p with
  | .completes d resp =>
      if d < 8000 then resp else timeoutAdvisory functionName
  | .fails _ => timeoutAdvisory functionName

/-- JS `String.prototype.padStart(n)` with spaces. -/
def padStart (s : String) (n : Nat) : String :=
  String.mk (List.replicate (n - s.length) ' ') ++ s

/-- JS `Array.prototype.map((x, i) => f i x)`: map with the 0-based
index (`mapWithIndex f 0 xs` is the call the source makes). -/
def mapWithIndex (f : Nat → α → β) : Nat → List α → List β
  | _, [] => []
  | i, a :: as => f i a :: mapWithIndex f (i + 1) as

/-- One rendered snippet line:
```${marker} ${actualLineNumber.toString().padStart(3)}: ${codeLine}```
with `>>>` exactly on the target line. -/
def snippetLine (targetLine : Int) (actualLineNumber : Nat) (codeLine : String) : String :=
  (if (actualLineNumber : Int) = targetLine then ">>>" else "   ") ++ " " ++
    padStart (toString actualLineNumber) 3 ++ ": " ++ codeLine

/-- The snippet renderer of `fetchUsageCodeExamples` (lines split on
`"\n"` are the input): `centerLine = line - 1`,
`startLine = max(0, centerLine - 5)`,
`endLine = min(lines.length - 1, centerLine + 5)`,
`lines.slice(startLine, endLine + 1)` mapped to marked, renumbered lines
and joined with newlines. JS number arithmetic is carried in `Int`. -/
def renderSnippet (fileLines : List String) (line : Int) : String :=
  let centerLine : Int := line - 1
  let startLine : Int := max 0 (centerLine - 5)
  let endLine : Int := min ((fileLines.length : Int) - 1) (centerLine + 5)
  let snippet := (fileLines.drop startLine.toNat).take (endLine + 1 - startLine).toNat
  String.intercalate "\n"
    (mapWithIndex
      (fun lineIndex codeLine => snippetLine line (startLine.toNat + lineIndex + 1) codeLine)
      0 snippet)

/-- The snippet window exactly as the spec words it: the clamped 0-based
window `[max(0, target-1-5), min(lastIndex, target-1+5)]`, each line
re-numbered to 1-based, marked with `>>>` iff it is the target line, the
line number right-justified. Spec-side definition, to be compared with
`renderSnippet`. -/
def renderSnippetSpec (fileLines : List String) (target : Nat) : String :=
  let lastIndex := fileLines.length - 1
  let lo := target - 1 - 5
  let hi := min lastIndex (target - 1 + 5)
  let window :=
    if fileLines.length = 0 then ([] : List Nat)
    else List.range' lo (hi + 1 - lo)
  String.intercalate "\n"
    (window.map (fun i => snippetLine (target : Int) (i + 1) (fileLines.getD i "")))

/-- JS `String.prototype.split(sep)` for a one-character separator, on
the character list: splitting keeps empty segments and `""` splits to
`[""]`. -/
def splitChars (sep : Char) : List Char → List (List Char)
  | [] => [[]]
  | c :: cs =>
    match splitChars sep cs with
    | [] => [[]]
    | seg :: rest => if c = sep then [] :: seg :: rest else (c :: seg) :: rest

/-- JS `String.prototype.split(sep)` for a one-character separator. -/
def splitOnChar (sep : Char) (s : String) : List String :=
  (splitChars sep s.data).map String.mk

/-- `String.intercalate "/"`: reassemble a path from its segments. -/
def joinSegs (l : List String) : String :=
  String.intercalate "/" l

/-- Whether position `i` of the segment list is a spot the regex
`/.*\/repositories\/[^\/]+\/(.+)$/` can anchor on: a `"repositories"`
segment preceded by a slash (`1 ≤ i`), followed by a non-empty segment,
with a non-empty remainder after that. -/
def validRepoIdx (segs : List String) (i : Nat) : Bool :=
  decide (1 ≤ i) && (segs.getD i "" == "repositories") &&
    (segs.getD (i + 1) "" != "") && (joinSegs (segs.drop (i + 2)) != "")

/-- The greedy `.*` makes the regex match at the rightmost valid
anchor. -/
def lastValidRepoIdx (segs : List String) : Option Nat :=
  ((List.range segs.length).filter (fun i => validRepoIdx segs i)).getLast?

/-- The relative-path extraction of `fetchUsageCodeExamples`, on the
path's `'/'`-segment decomposition: capture group 1 of
`path.match(/.*\/repositories\/[^\/]+\/(.+)$/)` when the regex matches,
else `path.split("/").slice(-2).join("/")`. -/
def extractRelativePathSegs (segs : List String) : String :=
  match lastValidRepoIdx segs with
  | some i => joinSegs (segs.drop (i + 2))
  | none => joinSegs (segs.drop (segs.length - 2))

/-- String-level wrapper: split on `"/"` and extract. -/
def extractRelativePath (path : String) : String :=
  extractRelativePathSegs (splitOnChar '/' path)

/-- One row returned by the call-graph query. -/
structure CallerRecord where
  name : String
  path : String
  line : Int
deriving Repr, DecidableEq

/-- How one caller's file fetch (raced against its 5-second timer)
settles, as observed by the `try` around it. -/
inductive FetchResult where
  | success (content : String)
  | notString
  | failure
  | timeout
deriving Repr, DecidableEq

/-- The fallback text assigned in the per-caller `catch`. -/
def fallbackSnippet (name relativePath : String) (line : Int) (functionName : String) : String :=
  "Function: " ++ name ++ "\nFile: " ++ relativePath ++ ":" ++ toString line ++
  "\nCalls: " ++ functionName ++ "\n\n(Code content temporarily unavailable)"

/-- The code snippet computed for one caller: on a fetched string the
rendered window, on a non-string result, a rejection or the 5-second
per-item timeout the deterministic fallback (the `catch` swallows every
failure, so this step is total). -/
def callerSnippet (functionName : String) (c : CallerRecord) (fetch : FetchResult) : String :=
  match fetch with
  | .success content => renderSnippet (splitOnChar '\n' content) c.line
  | _ => fallbackSnippet c.name (extractRelativePath c.path) c.line functionName

/-- The per-caller markdown block (the template literal of the source,
including its literal indentation). -/
def codeExampleEntry (functionName : String) (index : Nat) (c : CallerRecord)
    (fetch : FetchResult) : String :=
  "## Code Example " ++ toString (index + 1) ++ ": " ++ c.name ++
  "\n\n                            File: " ++ extractRelativePath c.path ++ ":" ++
  toString c.line ++ "\n                            Calls: " ++ functionName ++
  "\n\n                            ```\n                            " ++
  callerSnippet functionName c fetch ++
  "\n                            ```\n                            "

/-- `Promise.all(callers.map(...))`: every mapped promise resolves (the
per-caller `catch` guarantees it), so the joined list pairs each caller
with its entry, in query order. `fetches` carries how each caller's file
fetch settled. -/
def processCallers (functionName : String) (callers : List CallerRecord)
    (fetches : List FetchResult) : List String :=
  mapWithIndex
    (fun i p => codeExampleEntry functionName i p.1 p.2) 0
    (callers.zip fetches)

/-- The success payload text assembled from the entries. -/
def successPayload (functionName : String) (callers : List CallerRecord)
    (fetches : List FetchResult) : String :=
  "📋 Code Example Results for \"" ++ functionName ++ "\" function:\n\nFound " ++
  toString callers.length ++
  (if callers.length = 1 then " function" else " functions") ++
  " that call \"" ++ functionName ++ "\":\n\n" ++
  String.intercalate "\n\n" (processCallers functionName callers fetches)

/-- The ways `startBackgroundCreation`'s try-block can end. -/
inductive BuildOutcome where
  | graphAlreadyExists
  | requestFailed
  | requestTimedOut
  | pollSuccess (attempts : Nat)
  | pollBudgetExhausted
deriving Repr, DecidableEq

/-- A registry action the background routine performs: a lock update run
synchronously, or one scheduled behind a `setTimeout` delay. -/
inductive RegAction where
  | setLock (active : Bool)
  | deferred (delayMs : Nat) (act : RegAction)
deriving Repr, DecidableEq

/-- The registry-action trace of
`GraphCreationService.startBackgroundCreation`: the lock is set up
front; the try-block (early return on existing graph, request failure or
timeout caught, polling loop, budget exhaustion) touches the registry on
no path; the `finally` schedules `setCreationLock(key, false)` behind a
`2 * 60 * 1000` ms `setTimeout` on every outcome. -/
def backgroundCreationTrace (o : BuildOutcome) : List RegAction :=
  [RegAction.setLock true] ++
  (match o with
   | .graphAlreadyExists => []
   | .requestFailed => []
   | .requestTimedOut => []
   | .pollSuccess _ => []
   | .pollBudgetExhausted => []) ++
  [RegAction.deferred (2 * 60 * 1000) (RegAction.setLock false)]

/-- The registry well-formedness invariant: keys are unique (JS `Map`)
and every stored record has `inProgress = true` (absence encodes "not in
progress"). -/
def RegistryWF (r : Registry) : Prop :=
  (r.map Prod.fst).Nodup ∧ ∀ p ∈ r, p.2.inProgress = true

instance (r : Registry) : Decidable (RegistryWF r) := by
  unfold RegistryWF; infer_instance

/-! ## Registry lemmas -/

theorem regGet_cons (p : String × CreationEntry) (t : Registry) (k : String) :
    regGet (p :: t) k = if p.1 = k then some p.2 else regGet t k := by
  by_cases hp : p.1 = k
  · unfold regGet
    rw [List.find?_cons_of_pos _ (by simpa using hp)]
    simp [hp]
  · unfold regGet
    rw [List.find?_cons_of_neg _ (by simpa using hp)]
    simp [hp]

theorem regDelete_cons (p : String × CreationEntry) (t : Registry) (k : String) :
    regDelete (p :: t) k = if p.1 = k then regDelete t k else p :: regDelete t k := by
  by_cases hp : p.1 = k <;> simp [regDelete, List.filter_cons, hp]

theorem regGet_regDelete_self (r : Registry) (k : String) :
    regGet (regDelete r k) k = none := by
  induction r with
  | nil => rfl
  | cons p t ih =>
    rw [regDelete_cons]
    by_cases hp : p.1 = k
    · simpa [hp] using ih
    · rw [if_neg hp, regGet_cons, if_neg hp]
      exact ih

theorem regGet_regDelete_ne (r : Registry) (k k' : String) (h : k' ≠ k) :
    regGet (regDelete r k) k' = regGet r k' := by
  induction r with
  | nil => rfl
  | cons p t ih =>
    rw [regDelete_cons, regGet_cons]
    by_cases hp : p.1 = k
    · rw [if_pos hp, if_neg (by rw [hp]; exact fun e => h e.symm)]
      exact ih
    · rw [if_neg hp, regGet_cons]
      by_cases hpk : p.1 = k' <;> simp [hpk, ih]

theorem regGet_map_replace (r : Registry) (k : String) (v : CreationEntry)
    (h : (r.find? (fun p => p.1 == k)).isSome) :
    regGet (r.map fun p => if p.1 == k then (k, v) else p) k = some v := by
  induction r with
  | nil => simp at h
  | cons p t ih =>
    by_cases hp : p.1 = k
    · rw [List.map_cons,
        show (if (p.1 == k) = true then (k, v) else p) = (k, v) from by simp [hp],
        regGet_cons, if_pos rfl]
    · have h' : (t.find? (fun p => p.1 == k)).isSome := by
        rw [List.find?_cons_of_neg _ (by simpa using hp)] at h
        exact h
      rw [List.map_cons,
        show (if (p.1 == k) = true then (k, v) else p) = p from by simp [hp],
        regGet_cons, if_neg hp]
      exact ih h'

theorem regGet_append_single (r : Registry) (k : String) (v : CreationEntry)
    (h : ∀ p ∈ r, ¬ p.1 = k) :
    regGet (r ++ [(k, v)]) k = some v := by
  induction r with
  | nil => simp [regGet_cons]
  | cons p t ih =>
    rw [List.cons_append, regGet_cons, if_neg (h p (List.mem_cons_self p t))]
    exact ih fun q hq => h q (List.mem_cons_of_mem p hq)

theorem regGet_regSet_self (r : Registry) (k : String) (v : CreationEntry) :
    regGet (regSet r k v) k = some v := by
  unfold regSet
  by_cases hf : (r.find? (fun p => p.1 == k)).isSome
  · rw [if_pos hf]
    exact regGet_map_replace r k v hf
  · rw [if_neg hf]
    refine regGet_append_single r k v fun p hp hpk => hf ?_
    rw [List.find?_isSome]
    exact ⟨p, hp, by simpa using hpk⟩

/-! ## Behaviour of the registry operations -/

theorem clearStaleLocks_of_none (now : Nat) (r : Registry) (k : String)
    (h : regGet r k = none) : clearStaleLocks now r k = r := by
  simp [clearStaleLocks, h]

theorem clearStaleLocks_of_fresh (now : Nat) (r : Registry) (k : String)
    (e : CreationEntry) (h : regGet r k = some e)
    (hm : elapsedMinutes now e.timestamp ≤ 10) : clearStaleLocks now r k = r := by
  simp [clearStaleLocks, h, Nat.not_lt.mpr hm]

theorem clearStaleLocks_of_stale (now : Nat) (r : Registry) (k : String)
    (e : CreationEntry) (h : regGet r k = some e)
    (hm : 10 < elapsedMinutes now e.timestamp) :
    clearStaleLocks now r k = regDelete r k := by
  simp [clearStaleLocks, h, hm]

theorem getCreationProgress_of_none (now : Nat) (r : Registry) (k : String)
    (h : regGet r k = none) : getCreationProgress now r k = (notInProgressView, r) := by
  simp [getCreationProgress, h]

theorem getCreationProgress_of_active (now : Nat) (r : Registry) (k : String)
    (e : CreationEntry) (h : regGet r k = some e) (hip : e.inProgress = true)
    (hm : elapsedMinutes now e.timestamp ≤ 20) :
    getCreationProgress now r k =
      (⟨true, elapsedMinutes now e.timestamp,
        if elapsedMinutes now e.timestamp < 10 then "5-10 minutes" else "Should complete soon",
        if elapsedMinutes now e.timestamp < 10 then "Analyzing repository" else "Completing analysis"⟩,
        r) := by
  simp [getCreationProgress, h, hip, Nat.not_lt.mpr hm]

theorem getCreationProgress_of_stale (now : Nat) (r : Registry) (k : String)
    (e : CreationEntry) (h : regGet r k = some e) (hip : e.inProgress = true)
    (hm : 20 < elapsedMinutes now e.timestamp) :
    getCreationProgress now r k = (notInProgressView, regDelete r k) := by
  simp [getCreationProgress, h, hip, hm]

theorem graphMissingBranch_of_none (now : Nat) (r : Registry) (k : String)
    (h : regGet r k = none) :
    graphMissingBranch now r k = (.startAnalysis, setCreationLock now r k true) := by
  simp [graphMissingBranch, clearStaleLocks_of_none now r k h,
    getCreationProgress_of_none now r k h, notInProgressView]

/-! ## Claim theorems: staleness thresholds and lock idempotence -/

/-- C3 counterexample: a record aged 10 minutes 30 seconds is strictly
older than 10 minutes, yet `clearStaleLocks` leaves it untouched — the
code compares floored elapsed minutes (`10`) against `> 10`, so deletion
only starts at age 11 minutes. -/
theorem clearStaleLocks_overage_noop_cex :
    10 * 60000 < 630000 - 0 ∧
    clearStaleLocks 630000 [("o/r", ⟨true, 0, "Initializing analysis"⟩)] "o/r"
      = [("o/r", ⟨true, 0, "Initializing analysis"⟩)] := by decide

/-- C3 (amended): `clearStaleLocks(key)` is a no-op while the record's
floored elapsed minutes are at most 10 (age below 11 minutes), and
deletes the record exactly when the floored elapsed minutes exceed 10
(age at least 11 minutes). -/
theorem clearStaleLocks_threshold (now : Nat) (r : Registry) (k : String)
    (e : CreationEntry) (h : regGet r k = some e) :
    (elapsedMinutes now e.timestamp ≤ 10 → clearStaleLocks now r k = r) ∧
    (10 < elapsedMinutes now e.timestamp →
      clearStaleLocks now r k = regDelete r k ∧
      regGet (clearStaleLocks now r k) k = none) := by
  refine ⟨fun hm => clearStaleLocks_of_fresh now r k e h hm, fun hm => ?_⟩
  have hd := clearStaleLocks_of_stale now r k e h hm
  exact ⟨hd, hd ▸ regGet_regDelete_self r k⟩

/-- Witness for the C3 theorem at concrete ages 5 min and 15 min. -/
theorem clearStaleLocks_threshold_witness :
    clearStaleLocks 300000 [("o/r", ⟨true, 0, "x"⟩)] "o/r"
      = [("o/r", ⟨true, 0, "x"⟩)] ∧
    regGet (clearStaleLocks 900000 [("o/r", ⟨true, 0, "x"⟩)] "o/r") "o/r" = none :=
  ⟨(clearStaleLocks_threshold 300000 [("o/r", ⟨true, 0, "x"⟩)] "o/r"
      ⟨true, 0, "x"⟩ (by decide)).1 (by decide),
   ((clearStaleLocks_threshold 900000 [("o/r", ⟨true, 0, "x"⟩)] "o/r"
      ⟨true, 0, "x"⟩ (by decide)).2 (by decide)).2⟩

/-- C4 counterexample: a record aged 20 minutes 30 seconds exceeds the
20-minute hard threshold, yet `getCreationProgress` reports it as still
in progress and keeps it — eviction requires floored elapsed minutes
strictly above 20, i.e. age at least 21 minutes. -/
theorem getCreationProgress_overage_cex :
    20 * 60000 < 1230000 - 0 ∧
    getCreationProgress 1230000 [("o/r", ⟨true, 0, "x"⟩)] "o/r"
      = (⟨true, 20, "Should complete soon", "Completing analysis"⟩,
         [("o/r", ⟨true, 0, "x"⟩)]) := by decide

/-- C4 (amended): when the record's floored elapsed minutes exceed 20
(age at least 21 minutes), `getCreationProgress` deletes the record and
returns the not-in-progress view (`inProgress = false`, phase
`Complete`), after which the graph-missing flow for the same key starts
a new build. -/
theorem getCreationProgress_hard_eviction (now : Nat) (r : Registry) (k : String)
    (e : CreationEntry) (h : regGet r k = some e) (hip : e.inProgress = true)
    (hm : 20 < elapsedMinutes now e.timestamp) :
    getCreationProgress now r k = (notInProgressView, regDelete r k) ∧
    regGet (getCreationProgress now r k).2 k = none ∧
    (graphMissingBranch now (getCreationProgress now r k).2 k).1 = .startAnalysis := by
  have hs := getCreationProgress_of_stale now r k e h hip hm
  have hnone : regGet (getCreationProgress now r k).2 k = none := by
    rw [hs]; exact regGet_regDelete_self r k
  refine ⟨hs, hnone, ?_⟩
  rw [graphMissingBranch_of_none now _ k hnone]

/-- Witness for the C4 theorem at concrete age 25 min. -/
theorem getCreationProgress_hard_eviction_witness :
    getCreationProgress 1500000 [("o/r", ⟨true, 0, "x"⟩)] "o/r"
      = (notInProgressView, []) ∧
    (graphMissingBranch 1500000
        (getCreationProgress 1500000 [("o/r", ⟨true, 0, "x"⟩)] "o/r").2 "o/r").1
      = .startAnalysis := by
  have h := getCreationProgress_hard_eviction 1500000
    [("o/r", ⟨true, 0, "x"⟩)] "o/r" ⟨true, 0, "x"⟩ (by decide) (by decide) (by decide)
  exact ⟨by rw [h.1]; decide, h.2.2⟩

/-- C5: `setCreationLock(k, true)` on an existing record keeps its
`startedAt` timestamp (so a later `getCreationProgress` still reports
the elapsed minutes measured from the original start), while on an
absent record it stamps the current time. The preserved-timestamp part
assumes a positive stored timestamp: `existing?.timestamp || Date.now()`
would re-stamp a (never reachable) timestamp of exactly `0`. -/
theorem setCreationLock_preserves_startedAt (now now2 : Nat) (r : Registry) (k : String) :
    (∀ e, regGet r k = some e → 0 < e.timestamp →
      regGet (setCreationLock now r k true) k
        = some ⟨true, e.timestamp, "Initializing analysis"⟩ ∧
      (elapsedMinutes now2 e.timestamp ≤ 20 →
        (getCreationProgress now2 (setCreationLock now r k true) k).1.elapsedMinutes
          = elapsedMinutes now2 e.timestamp ∧
        (getCreationProgress now2 (setCreationLock now r k true) k).1.inProgress = true)) ∧
    (regGet r k = none →
      regGet (setCreationLock now r k true) k
        = some ⟨true, now, "Initializing analysis"⟩) := by
  constructor
  · intro e he hts
    have hset : setCreationLock now r k true
        = regSet r k ⟨true, e.timestamp, "Initializing analysis"⟩ := by
      simp [setCreationLock, he, Nat.pos_iff_ne_zero.mp hts]
    have hget : regGet (setCreationLock now r k true) k
        = some ⟨true, e.timestamp, "Initializing analysis"⟩ := by
      rw [hset]; exact regGet_regSet_self r k _
    refine ⟨hget, fun hm => ?_⟩
    rw [getCreationProgress_of_active now2 _ k _ hget rfl hm]
    exact ⟨rfl, rfl⟩
  · intro he
    have hset : setCreationLock now r k true
        = regSet r k ⟨true, now, "Initializing analysis"⟩ := by
      simp [setCreationLock, he]
    rw [hset]; exact regGet_regSet_self r k _

/-- Witness for the C5 theorem: a lock re-armed one minute after a start
at t=60000 still reports elapsed time from the original start. -/
theorem setCreationLock_preserves_startedAt_witness :
    regGet (setCreationLock 120000 [("o/r", ⟨true, 60000, "Initializing analysis"⟩)] "o/r" true) "o/r"
      = some ⟨true, 60000, "Initializing analysis"⟩ ∧
    (getCreationProgress 180000
        (setCreationLock 120000 [("o/r", ⟨true, 60000, "Initializing analysis"⟩)] "o/r" true)
        "o/r").1.elapsedMinutes = 2 ∧
    regGet (setCreationLock 120000 [] "o/r" true) "o/r"
      = some ⟨true, 120000, "Initializing analysis"⟩ := by
  have h := setCreationLock_preserves_startedAt 120000 180000
    [("o/r", ⟨true, 60000, "Initializing analysis"⟩)] "o/r"
  have h1 := h.1 ⟨true, 60000, "Initializing analysis"⟩ (by decide) (by decide)
  have h2 := setCreationLock_preserves_startedAt 120000 180000 [] "o/r"
  exact ⟨h1.1, (h1.2 (by decide)).1, h2.2 (by decide)⟩

/-- C1 counterexample: with a record aged 6 minutes the soft stale-lock
eviction (10-minute cutoff) leaves the registry showing an in-progress
build, yet the branch does not return a progress message: the 5-minute
force-clear deletes the record and a new build is started (the original
record is gone from the resulting registry). -/
theorem graphMissingBranch_force_clear_cex :
    (getCreationProgress 360000
        (clearStaleLocks 360000 [("o/r", ⟨true, 0, "Initializing analysis"⟩)] "o/r")
        "o/r").1.inProgress = true ∧
    (graphMissingBranch 360000 [("o/r", ⟨true, 0, "Initializing analysis"⟩)] "o/r").1
      = .startAnalysis ∧
    regGet (graphMissingBranch 360000
        [("o/r", ⟨true, 0, "Initializing analysis"⟩)] "o/r").2 "o/r"
      ≠ some ⟨true, 0, "Initializing analysis"⟩ := by decide

/-- C1 (amended): in the graph-missing branch, after stale-lock
eviction, a record still in progress yields the progress message (and no
registry mutation at all) only when its floored elapsed minutes are
below 5; an in-progress record with elapsed minutes at least 5 is
force-cleared and a new build is started instead. -/
theorem graphMissingBranch_progress_cutoff (now : Nat) (r : Registry) (k : String)
    (e : CreationEntry) (h : regGet r k = some e) (hip : e.inProgress = true) :
    (elapsedMinutes now e.timestamp < 5 →
      graphMissingBranch now r k =
        (.progressMessage
          ⟨true, elapsedMinutes now e.timestamp, "5-10 minutes", "Analyzing repository"⟩,
         r)) ∧
    (5 ≤ elapsedMinutes now e.timestamp →
      (graphMissingBranch now r k).1 = .startAnalysis) := by
  constructor
  · intro hm
    have h10 : elapsedMinutes now e.timestamp < 10 := by omega
    have h1 : clearStaleLocks now r k = r :=
      clearStaleLocks_of_fresh now r k e h (by omega)
    have h2 := getCreationProgress_of_active now r k e h hip (by omega)
    simp [graphMissingBranch, h1, h2, h10, Nat.not_le.mpr hm]
  · intro hm
    rcases Nat.lt_or_ge 10 (elapsedMinutes now e.timestamp) with h10 | h10
    · have h1 := clearStaleLocks_of_stale now r k e h h10
      have hn : regGet (clearStaleLocks now r k) k = none :=
        h1 ▸ regGet_regDelete_self r k
      simp [graphMissingBranch, getCreationProgress_of_none now _ k hn,
        notInProgressView]
    · have h1 : clearStaleLocks now r k = r :=
        clearStaleLocks_of_fresh now r k e h h10
      have h2 := getCreationProgress_of_active now r k e h hip (by omega)
      have h3 : setCreationLock now r k false = regDelete r k := by
        simp [setCreationLock]
      have h4 : regGet (regDelete (regDelete r k) k) k = none :=
        regGet_regDelete_self _ k
      simp [graphMissingBranch, h1, h2, hm, h3,
        getCreationProgress_of_none now _ k h4, notInProgressView]

/-- Witness for the C1 theorem at ages 2 min (progress message) and
6 min (force-clear and restart). -/
theorem graphMissingBranch_progress_cutoff_witness :
    graphMissingBranch 120000 [("o/r", ⟨true, 0, "Initializing analysis"⟩)] "o/r"
      = (.progressMessage ⟨true, 2, "5-10 minutes", "Analyzing repository"⟩,
         [("o/r", ⟨true, 0, "Initializing analysis"⟩)]) ∧
    (graphMissingBranch 360000 [("o/r", ⟨true, 0, "Initializing analysis"⟩)] "o/r").1
      = .startAnalysis :=
  ⟨(graphMissingBranch_progress_cutoff 120000
      [("o/r", ⟨true, 0, "Initializing analysis"⟩)] "o/r"
      ⟨true, 0, "Initializing analysis"⟩ (by decide) rfl).1 (by decide),
   (graphMissingBranch_progress_cutoff 360000
      [("o/r", ⟨true, 0, "Initializing analysis"⟩)] "o/r"
      ⟨true, 0, "Initializing analysis"⟩ (by decide) rfl).2 (by decide)⟩

/-- C2 counterexample: a pipeline rejection 100 ms in — well inside the
8-second deadline — produces the very same timeout-advisory message, so
the advisory is not returned exactly (only) when the deadline is
exceeded. -/
theorem racedResult_error_advisory_cex :
    racedResult "getUser" (.fails 100) = timeoutAdvisory "getUser" ∧ 100 < 8000 :=
  ⟨rfl, by decide⟩

/-- C2 (amended): the raced unit resolves with the pipeline's own
response exactly when it completes within the 8000 ms deadline; past the
deadline the advisory message is returned regardless of the pipeline's
eventual value (computed partial results are discarded), and every
pipeline rejection — before or after the deadline — yields the same
advisory message rather than a distinct error. -/
theorem racedResult_spec (f : String) :
    (∀ d resp, d < 8000 → racedResult f (.completes d resp) = resp) ∧
    (∀ d resp, 8000 ≤ d → racedResult f (.completes d resp) = timeoutAdvisory f) ∧
    (∀ d, racedResult f (.fails d) = timeoutAdvisory f) := by
  refine ⟨fun d resp hd => ?_, fun d resp hd => ?_, fun d => rfl⟩
  · simp [racedResult, hd]
  · simp [racedResult, Nat.not_lt.mpr hd]

/-- Witness for the C2 theorem at concrete durations. -/
theorem racedResult_spec_witness :
    racedResult "f" (.completes 100 "ok") = "ok" ∧
    racedResult "f" (.completes 9000 "ok") = timeoutAdvisory "f" ∧
    racedResult "f" (.fails 9000) = timeoutAdvisory "f" :=
  ⟨(racedResult_spec "f").1 100 "ok" (by decide),
   (racedResult_spec "f").2.1 9000 "ok" (by decide),
   (racedResult_spec "f").2.2 9000⟩

/-- C8: on every outcome of the supervised background build — graph
found to exist already, external request failure, request timeout,
polling success, or polling budget exhausted — the routine never clears
the registry lock synchronously; the only clear is scheduled behind the
fixed 2-minute (`2 * 60 * 1000` ms) grace delay, as the routine's final
action. -/
theorem backgroundCreation_deferred_clear (o : BuildOutcome) :
    RegAction.setLock false ∉ backgroundCreationTrace o ∧
    (backgroundCreationTrace o).getLast?
      = some (.deferred (2 * 60 * 1000) (.setLock false)) ∧
    RegAction.deferred (2 * 60 * 1000) (.setLock false) ∈ backgroundCreationTrace o := by
  cases o <;> simp [backgroundCreationTrace]

/-! ## The registry invariant (C9) -/

theorem registryWF_regDelete (r : Registry) (k : String) (h : RegistryWF r) :
    RegistryWF (regDelete r k) := by
  refine ⟨h.1.sublist ((List.filter_sublist r).map Prod.fst), ?_⟩
  intro p hp
  exact h.2 p (List.mem_of_mem_filter hp)

theorem registryWF_regSet (r : Registry) (k : String) (e : CreationEntry)
    (he : e.inProgress = true) (h : RegistryWF r) :
    RegistryWF (regSet r k e) := by
  unfold regSet
  by_cases hf : (r.find? (fun p => p.1 == k)).isSome
  · rw [if_pos hf]
    constructor
    · have hkeys : (r.map fun p => if p.1 == k then (k, e) else p).map Prod.fst
          = r.map Prod.fst := by
        rw [List.map_map]
        refine List.map_congr_left fun p _ => ?_
        by_cases hp : p.1 = k
        · simp [hp]
        · simp [hp]
      rw [hkeys]; exact h.1
    · intro p hp
      rcases List.mem_map.mp hp with ⟨q, hq, hqe⟩
      by_cases hqk : q.1 = k
      · rw [← hqe]; simp [hqk, he]
      · rw [← hqe]; simpa [hqk] using h.2 q hq
  · rw [if_neg hf]
    constructor
    · rw [List.map_append]
      rw [List.nodup_append]
      refine ⟨h.1, List.nodup_singleton k, ?_⟩
      intro a ha hb
      simp only [List.map_cons, List.map_nil, List.mem_singleton] at hb
      subst hb
      rcases List.mem_map.mp ha with ⟨q, hq, hqe⟩
      exact hf (List.find?_isSome.mpr ⟨q, hq, by simpa using hqe⟩)
    · intro p hp
      rcases List.mem_append.mp hp with hp | hp
      · exact h.2 p hp
      · simp only [List.mem_singleton] at hp
        rw [hp]; exact he

theorem registryWF_setCreationLock (now : Nat) (r : Registry) (k : String)
    (status : Bool) (h : RegistryWF r) :
    RegistryWF (setCreationLock now r k status) := by
  unfold setCreationLock
  cases status with
  | false => exact registryWF_regDelete r k h
  | true => exact registryWF_regSet r k _ rfl h

theorem registryWF_clearStaleLocks (now : Nat) (r : Registry) (k : String)
    (h : RegistryWF r) : RegistryWF (clearStaleLocks now r k) := by
  unfold clearStaleLocks
  cases regGet r k with
  | none => exact h
  | some e =>
    dsimp only
    split
    · exact registryWF_regDelete r k h
    · exact h

theorem registryWF_getCreationProgress (now : Nat) (r : Registry) (k : String)
    (h : RegistryWF r) : RegistryWF (getCreationProgress now r k).2 := by
  unfold getCreationProgress
  cases regGet r k with
  | none => exact h
  | some e =>
    dsimp only
    split
    · split
      · exact registryWF_regDelete r k h
      · exact h
    · exact h

theorem registryWF_isCreationInProgress (now : Nat) (r : Registry) (k : String)
    (h : RegistryWF r) : RegistryWF (isCreationInProgress now r k).2 := by
  unfold isCreationInProgress
  cases regGet r k with
  | none => exact h
  | some e =>
    dsimp only
    split
    · split
      · exact registryWF_regDelete r k h
      · exact h
    · exact h

theorem registryWF_graphMissingBranch (now : Nat) (r : Registry) (k : String)
    (h : RegistryWF r) : RegistryWF (graphMissingBranch now r k).2 := by
  simp only [graphMissingBranch]
  have w1 : RegistryWF (clearStaleLocks now r k) :=
    registryWF_clearStaleLocks now r k h
  generalize clearStaleLocks now r k = r1 at w1 ⊢
  have w2 : RegistryWF (getCreationProgress now r1 k).2 :=
    registryWF_getCreationProgress now r1 k w1
  generalize getCreationProgress now r1 k = pr at w2 ⊢
  by_cases hc : pr.1.inProgress = true ∧ 5 ≤ pr.1.elapsedMinutes
  · rw [if_pos hc]
    have w3 : RegistryWF (regDelete (setCreationLock now pr.2 k false) k) :=
      registryWF_regDelete _ k (registryWF_setCreationLock now pr.2 k false w2)
    generalize regDelete (setCreationLock now pr.2 k false) k = r3 at w3 ⊢
    have w4 : RegistryWF (getCreationProgress now r3 k).2 :=
      registryWF_getCreationProgress now r3 k w3
    generalize getCreationProgress now r3 k = fin at w4 ⊢
    split
    · exact w4
    · exact registryWF_setCreationLock now fin.2 k true w4
  · rw [if_neg hc]
    have w4 : RegistryWF (getCreationProgress now pr.2 k).2 :=
      registryWF_getCreationProgress now pr.2 k w2
    generalize getCreationProgress now pr.2 k = fin at w4 ⊢
    split
    · exact w4
    · exact registryWF_setCreationLock now fin.2 k true w4

/-- C9: every registry operation of the coordination subsystem —
`setCreationLock` (either flag), `clearStaleLocks`, the progress reads,
the graph-missing branch, and the background routine's lock updates
(which all go through `setCreationLock`) — preserves the invariant that
every stored record has `inProgress = true` and that keys are unique
(at most one record per repository key); "not in progress" is always
encoded by absence. -/
theorem registry_invariant_preserved (now : Nat) (r : Registry) (k : String)
    (status : Bool) (h : RegistryWF r) :
    RegistryWF (setCreationLock now r k status) ∧
    RegistryWF (clearStaleLocks now r k) ∧
    RegistryWF (getCreationProgress now r k).2 ∧
    RegistryWF (isCreationInProgress now r k).2 ∧
    RegistryWF (graphMissingBranch now r k).2 :=
  ⟨registryWF_setCreationLock now r k status h,
   registryWF_clearStaleLocks now r k h,
   registryWF_getCreationProgress now r k h,
   registryWF_isCreationInProgress now r k h,
   registryWF_graphMissingBranch now r k h⟩

/-- Witness for the C9 theorem on a concrete two-record registry. -/
theorem registry_invariant_preserved_witness :
    RegistryWF [("a/b", ⟨true, 60000, "Initializing analysis"⟩),
                ("c/d", ⟨true, 0, "Initializing analysis"⟩)] ∧
    RegistryWF (setCreationLock 900000
      [("a/b", ⟨true, 60000, "Initializing analysis"⟩),
       ("c/d", ⟨true, 0, "Initializing analysis"⟩)] "a/b" true) ∧
    RegistryWF (graphMissingBranch 900000
      [("a/b", ⟨true, 60000, "Initializing analysis"⟩),
       ("c/d", ⟨true, 0, "Initializing analysis"⟩)] "a/b").2 :=
  ⟨by decide,
   (registry_invariant_preserved 900000
     [("a/b", ⟨true, 60000, "Initializing analysis"⟩),
      ("c/d", ⟨true, 0, "Initializing analysis"⟩)] "a/b" true (by decide)).1,
   (registry_invariant_preserved 900000
     [("a/b", ⟨true, 60000, "Initializing analysis"⟩),
      ("c/d", ⟨true, 0, "Initializing analysis"⟩)] "a/b" true (by decide)).2.2.2.2⟩

/-! ## Snippet rendering (C6) -/

theorem mapWithIndex_eq_range'_map (g : Nat → String → β) (xs : List String) (i : Nat) :
    mapWithIndex g i xs
      = (List.range' i xs.length).map (fun j => g j (xs.getD (j - i) "")) := by
  induction xs generalizing i with
  | nil => rfl
  | cons x xs ih =>
    rw [List.length_cons, List.range'_succ, List.map_cons, mapWithIndex]
    congr 1
    · rw [Nat.sub_self, List.getD_cons_zero]
    · rw [ih (i + 1)]
      refine List.map_congr_left fun j hj => ?_
      have hij : i + 1 ≤ j := (List.mem_range'_1.mp hj).1
      have hji : j - i = (j - (i + 1)) + 1 := by omega
      rw [hji, List.getD_cons_succ]

/-- C6: the rendered snippet is exactly the clamped window
`[max(0, target-1-5), min(lastIndex, target-1+5)]` described by the
spec, each line renumbered to 1-based with the right-justified number
and marked `>>>` precisely on the target line; the clamping (rather
than any exception) also covers out-of-range targets, where the window
is empty. -/
theorem renderSnippet_eq_spec (fileLines : List String) (target : Nat)
    (h : 1 ≤ target) :
    renderSnippet fileLines (target : Int) = renderSnippetSpec fileLines target := by
  rcases Nat.eq_zero_or_pos fileLines.length with hlen | hlen
  · have hnil : fileLines = [] := List.length_eq_zero.mp hlen
    subst hnil
    simp [renderSnippet, renderSnippetSpec, mapWithIndex]
  · simp only [renderSnippet, renderSnippetSpec]
    rw [if_neg (by omega)]
    have hlo : (max 0 ((target : Int) - 1 - 5)).toNat = target - 1 - 5 := by omega
    have hn : (min ((fileLines.length : Int) - 1) ((target : Int) - 1 + 5) + 1
        - max 0 ((target : Int) - 1 - 5)).toNat
        = min (fileLines.length - 1) (target + 4) + 1 - (target - 1 - 5) := by omega
    have ht : target - 1 + 5 = target + 4 := by omega
    simp only [hlo, hn, ht]
    refine congrArg (String.intercalate "\n") ?_
    rw [mapWithIndex_eq_range'_map]
    have hslice : ((fileLines.drop (target - 1 - 5)).take
        (min (fileLines.length - 1) (target + 4) + 1 - (target - 1 - 5))).length
        = min (fileLines.length - 1) (target + 4) + 1 - (target - 1 - 5) := by
      rw [List.length_take, List.length_drop]
      omega
    rw [hslice]
    have hshift : List.range' (target - 1 - 5)
        (min (fileLines.length - 1) (target + 4) + 1 - (target - 1 - 5))
        = (List.range' 0
            (min (fileLines.length - 1) (target + 4) + 1 - (target - 1 - 5))).map
          ((target - 1 - 5) + ·) := by
      rw [List.map_add_range']
      simp
    rw [hshift, List.map_map]
    refine List.map_congr_left fun j hj => ?_
    have hjlt : j < min (fileLines.length - 1) (target + 4) + 1 - (target - 1 - 5) := by
      have := (List.mem_range'_1.mp hj).2
      omega
    simp only [Function.comp_apply, Nat.sub_zero]
    have hcontent : ((fileLines.drop (target - 1 - 5)).take
        (min (fileLines.length - 1) (target + 4) + 1 - (target - 1 - 5))).getD j ""
        = fileLines.getD ((target - 1 - 5) + j) "" := by
      rw [List.getD_eq_getElem?_getD, List.getElem?_take, if_pos hjlt,
        List.getElem?_drop, ← List.getD_eq_getElem?_getD]
    rw [hcontent]

/-- Witness for the C6 theorem on a concrete 3-line file and target
line 2. -/
theorem renderSnippet_eq_spec_witness :
    renderSnippet ["alpha", "beta", "gamma"] ((2 : Nat) : Int)
      = renderSnippetSpec ["alpha", "beta", "gamma"] 2 ∧
    renderSnippetSpec ["alpha", "beta", "gamma"] 2
      = "      1: alpha\n>>>   2: beta\n      3: gamma" :=
  ⟨renderSnippet_eq_spec ["alpha", "beta", "gamma"] 2 (by decide), by decide⟩

/-! ## Per-caller enrichment (C7) -/

theorem mapWithIndex_length (f : Nat → α → β) (xs : List α) (i : Nat) :
    (mapWithIndex f i xs).length = xs.length := by
  induction xs generalizing i with
  | nil => rfl
  | cons x xs ih => simp [mapWithIndex, ih]

theorem mapWithIndex_getElem? (f : Nat → α → β) (xs : List α) (i j : Nat) :
    (mapWithIndex f i xs)[j]? = xs[j]?.map (f (i + j)) := by
  induction xs generalizing i j with
  | nil => simp [mapWithIndex]
  | cons x xs ih =>
    cases j with
    | zero => simp [mapWithIndex]
    | succ n =>
      simp only [mapWithIndex, List.getElem?_cons_succ, ih (i + 1) n]
      rw [show i + 1 + n = i + (n + 1) from by omega]

theorem getElem?_zip_of (as : List CallerRecord) (bs : List FetchResult) (j : Nat)
    (c : CallerRecord) (fc : FetchResult)
    (ha : as[j]? = some c) (hb : bs[j]? = some fc) :
    (as.zip bs)[j]? = some (c, fc) := by
  induction as generalizing bs j with
  | nil => simp at ha
  | cons a as ih =>
    cases bs with
    | nil => simp at hb
    | cons b bs =>
      cases j with
      | zero =>
        simp only [List.getElem?_cons_zero, Option.some_inj] at ha hb
        simp [List.zip_cons_cons, ha, hb]
      | succ n =>
        simp only [List.getElem?_cons_succ] at ha hb
        simpa [List.zip_cons_cons] using ih bs n ha hb

/-- C7: per-caller enrichment is total and local — a caller whose file
fetch rejects or exceeds its 5-second per-item deadline degrades to the
deterministic fallback text naming the caller, its file and line and
the searched function, marked "temporarily unavailable", while the
assembled result still contains one entry per caller, each built from
that caller's own fetch outcome alone (so every other caller's entry is
unaffected and the request returns the success payload). -/
theorem processCallers_local_fallback (f : String) (callers : List CallerRecord)
    (fetches : List FetchResult) :
    (callers.length = fetches.length →
      (processCallers f callers fetches).length = callers.length) ∧
    (∀ j c fc, callers[j]? = some c → fetches[j]? = some fc →
      (processCallers f callers fetches)[j]? = some (codeExampleEntry f j c fc)) ∧
    (∀ c fc, fc = .failure ∨ fc = .timeout →
      callerSnippet f c fc
        = fallbackSnippet c.name (extractRelativePath c.path) c.line f) := by
  refine ⟨fun hlen => ?_, fun j c fc hc hfc => ?_, fun c fc hfc => ?_⟩
  · rw [processCallers, mapWithIndex_length, List.length_zip, hlen, Nat.min_self]
  · rw [processCallers, mapWithIndex_getElem?, getElem?_zip_of callers fetches j c fc hc hfc]
    simp
  · rcases hfc with hfc | hfc <;> subst hfc <;> rfl

/-- Witness for the C7 theorem: two callers, the second of which times
out and degrades to the fallback while the first keeps its snippet. -/
theorem processCallers_local_fallback_witness :
    (processCallers "target"
      [⟨"f1", "/app/repositories/x/src/a.ts", 1⟩,
       ⟨"f2", "/app/repositories/x/src/b.ts", 1⟩]
      [.success "line1", .timeout]).length = 2 ∧
    (processCallers "target"
      [⟨"f1", "/app/repositories/x/src/a.ts", 1⟩,
       ⟨"f2", "/app/repositories/x/src/b.ts", 1⟩]
      [.success "line1", .timeout])[1]?
      = some (codeExampleEntry "target" 1
          ⟨"f2", "/app/repositories/x/src/b.ts", 1⟩ .timeout) ∧
    callerSnippet "target" ⟨"f2", "/app/repositories/x/src/b.ts", 1⟩ .timeout
      = fallbackSnippet "f2"
          (extractRelativePath "/app/repositories/x/src/b.ts") 1 "target" :=
  ⟨(processCallers_local_fallback "target"
      [⟨"f1", "/app/repositories/x/src/a.ts", 1⟩,
       ⟨"f2", "/app/repositories/x/src/b.ts", 1⟩]
      [.success "line1", .timeout]).1 rfl,
   (processCallers_local_fallback "target"
      [⟨"f1", "/app/repositories/x/src/a.ts", 1⟩,
       ⟨"f2", "/app/repositories/x/src/b.ts", 1⟩]
      [.success "line1", .timeout]).2.1 1
      ⟨"f2", "/app/repositories/x/src/b.ts", 1⟩ .timeout rfl rfl,
   (processCallers_local_fallback "target"
      [⟨"f1", "/app/repositories/x/src/a.ts", 1⟩,
       ⟨"f2", "/app/repositories/x/src/b.ts", 1⟩]
      [.success "line1", .timeout]).2.2
      ⟨"f2", "/app/repositories/x/src/b.ts", 1⟩ .timeout (Or.inr rfl)⟩

/-! ## Relative-path extraction (C10) -/

theorem getLast?_filter_range (P : Nat → Bool) (m N : Nat) (hm : m < N)
    (hP : P m = true) (hafter : ∀ j, m < j → P j = false) :
    ((List.range N).filter P).getLast? = some m := by
  induction N with
  | zero => omega
  | succ n ih =>
    rw [List.range_succ, List.filter_append]
    rcases Nat.lt_or_ge m n with hlt | hge
    · have he : List.filter P [n] = [] := by simp [hafter n (by omega)]
      rw [he, List.append_nil]
      exact ih hlt
    · have hmn : m = n := by omega
      subst hmn
      have he : List.filter P [m] = [m] := by simp [hP]
      rw [he, List.getLast?_concat]

/-- A position at or past the end of the segment list can never anchor
the pattern: the out-of-range default `""` is not `"repositories"`. -/
theorem validRepoIdx_false_of_ge (segs : List String) (j : Nat)
    (h : segs.length ≤ j) : validRepoIdx segs j = false := by
  have hd : segs.getD j "" = "" := List.getD_eq_default segs "" h
  simp only [validRepoIdx, hd]
  simp

/-- An index anchors the regex exactly when the segment list decomposes
as `pres ++ "repositories" :: seg :: rests` with a non-empty prefix of
that length, a non-empty following segment and a non-empty remainder. -/
theorem validRepoIdx_iff (segs : List String) (i : Nat) :
    validRepoIdx segs i = true ↔
      ∃ pres seg rests, segs = pres ++ "repositories" :: seg :: rests ∧
        pres.length = i ∧ pres ≠ [] ∧ seg ≠ "" ∧ joinSegs rests ≠ "" := by
  constructor
  · intro hv
    simp only [validRepoIdx, Bool.and_eq_true, decide_eq_true_eq, beq_iff_eq,
      bne_iff_ne, ne_eq] at hv
    obtain ⟨⟨⟨h1, h2⟩, h3⟩, h4⟩ := hv
    have hi : i < segs.length := by
      by_contra hcon
      rw [List.getD_eq_default segs "" (by omega)] at h2
      exact absurd h2 (by decide)
    have hi1 : i + 1 < segs.length := by
      by_contra hcon
      rw [List.getD_eq_default segs "" (by omega)] at h3
      exact h3 rfl
    have h2' : segs[i] = "repositories" := by
      rw [List.getD_eq_getElem segs "" hi] at h2
      exact h2
    have h3' : segs.getD (i + 1) "" = segs[i + 1] :=
      List.getD_eq_getElem segs "" hi1
    refine ⟨segs.take i, segs[i + 1], segs.drop (i + 2), ?_, ?_, ?_, ?_, h4⟩
    · conv_lhs => rw [← List.take_append_drop i segs]
      rw [List.drop_eq_getElem_cons hi, h2', List.drop_eq_getElem_cons hi1]
    · rw [List.length_take]
      omega
    · intro hnil
      have hlen0 : (segs.take i).length = 0 := by rw [hnil]; rfl
      rw [List.length_take] at hlen0
      omega
    · rw [← h3']
      exact h3
  · rintro ⟨pres, seg, rests, heq, hlen, hpres, hseg, hrest⟩
    subst heq
    subst hlen
    have hm1 : 0 < pres.length := List.length_pos.mpr hpres
    have hA : (pres ++ "repositories" :: seg :: rests)[pres.length]?
        = some "repositories" := by
      rw [List.getElem?_append_right (Nat.le_refl _), Nat.sub_self]
      rfl
    have hB : (pres ++ "repositories" :: seg :: rests)[pres.length + 1]?
        = some seg := by
      rw [List.getElem?_append_right (by omega),
        show pres.length + 1 - pres.length = 1 from by omega]
      simp
    have hC : (pres ++ "repositories" :: seg :: rests).drop (pres.length + 2)
        = rests := by
      rw [show pres ++ "repositories" :: seg :: rests
            = (pres ++ ["repositories", seg]) ++ rests from by simp,
        List.drop_left' (by simp)]
    simp only [validRepoIdx, List.getD_eq_getElem?_getD, hA, hB, hC]
    simp [hseg, hrest]
    omega

/-- C10: the displayed relative path follows the claimed rule,
universally. Whenever the path's segment list matches the pattern
`.../repositories/<one segment>/<rest>` — i.e. it decomposes as
`pres ++ "repositories" :: seg :: rests` with `pres` non-empty (the
slash before `repositories`), `seg` non-empty and a non-empty remainder
— the extraction returns the `<rest>` of the regex's match: the greedy
`.*` anchors at the rightmost such decomposition, and the returned
decomposition is proved maximal among all matching ones. When no
decomposition matches, the extraction is the last two segments joined
with `"/"`. -/
theorem extractRelativePathSegs_spec :
    (∀ segs : List String,
      (∃ pres seg rests, segs = pres ++ "repositories" :: seg :: rests ∧
        pres ≠ [] ∧ seg ≠ "" ∧ joinSegs rests ≠ "") →
      ∃ pres seg rests, segs = pres ++ "repositories" :: seg :: rests ∧
        pres ≠ [] ∧ seg ≠ "" ∧ joinSegs rests ≠ "" ∧
        extractRelativePathSegs segs = joinSegs rests ∧
        (∀ pres' seg' rests',
          segs = pres' ++ "repositories" :: seg' :: rests' →
          pres' ≠ [] → seg' ≠ "" → joinSegs rests' ≠ "" →
          pres'.length ≤ pres.length)) ∧
    (∀ segs : List String,
      (¬ ∃ pres seg rests, segs = pres ++ "repositories" :: seg :: rests ∧
        pres ≠ [] ∧ seg ≠ "" ∧ joinSegs rests ≠ "") →
      extractRelativePathSegs segs = joinSegs (segs.drop (segs.length - 2))) := by
  constructor
  · rintro segs ⟨pres0, seg0, rests0, heq0, hpres0, hseg0, hrest0⟩
    have h0 : validRepoIdx segs pres0.length = true :=
      (validRepoIdx_iff segs pres0.length).mpr
        ⟨pres0, seg0, rests0, heq0, rfl, hpres0, hseg0, hrest0⟩
    have hple : pres0.length ≤ segs.length := by
      rw [heq0, List.length_append]
      omega
    have hPm : validRepoIdx segs
        (Nat.findGreatest (fun i => validRepoIdx segs i = true) segs.length) = true :=
      Nat.findGreatest_spec (P := fun i => validRepoIdx segs i = true) hple h0
    have hmax : ∀ j,
        Nat.findGreatest (fun i => validRepoIdx segs i = true) segs.length < j →
        validRepoIdx segs j = false := by
      intro j hj
      rcases Nat.lt_or_ge j (segs.length + 1) with hjN | hjN
      · cases hvj : validRepoIdx segs j with
        | false => rfl
        | true =>
          exact absurd hvj (Nat.findGreatest_is_greatest hj (by omega))
      · exact validRepoIdx_false_of_ge segs j (by omega)
    obtain ⟨pres, seg, rests, heq, hlen, hpres, hseg, hrest⟩ :=
      (validRepoIdx_iff segs _).mp hPm
    have hlenEq : segs.length = pres.length + 2 + rests.length := by
      rw [heq, List.length_append, List.length_cons, List.length_cons]
      omega
    have hmN : Nat.findGreatest (fun i => validRepoIdx segs i = true) segs.length
        < segs.length := by
      omega
    have hlast : lastValidRepoIdx segs
        = some (Nat.findGreatest (fun i => validRepoIdx segs i = true) segs.length) := by
      unfold lastValidRepoIdx
      exact getLast?_filter_range _ _ _ hmN hPm hmax
    refine ⟨pres, seg, rests, heq, hpres, hseg, hrest, ?_, ?_⟩
    · have hdrop : segs.drop
          (Nat.findGreatest (fun i => validRepoIdx segs i = true) segs.length + 2)
          = rests := by
        rw [← hlen, heq,
          show pres ++ "repositories" :: seg :: rests
            = (pres ++ ["repositories", seg]) ++ rests from by simp,
          List.drop_left' (by simp)]
      simp [extractRelativePathSegs, hlast, hdrop]
    · intro pres' seg' rests' heq' hpres' hseg' hrest'
      have h' : validRepoIdx segs pres'.length = true :=
        (validRepoIdx_iff segs pres'.length).mpr
          ⟨pres', seg', rests', heq', rfl, hpres', hseg', hrest'⟩
      by_contra hcon
      push_neg at hcon
      have hfalse : validRepoIdx segs pres'.length = false := hmax _ (by omega)
      rw [h'] at hfalse
      exact absurd hfalse (by decide)
  · intro segs hno
    have hall : ∀ i, validRepoIdx segs i = false := by
      intro i
      cases hv : validRepoIdx segs i with
      | false => rfl
      | true =>
        obtain ⟨pres, seg, rests, heq, _, hpres, hseg, hrest⟩ :=
          (validRepoIdx_iff segs i).mp hv
        exact absurd ⟨pres, seg, rests, heq, hpres, hseg, hrest⟩ hno
    have hfilter : (List.range segs.length).filter (fun i => validRepoIdx segs i)
        = [] := by
      rw [List.filter_eq_nil_iff]
      intro i _ hvi
      rw [hall i] at hvi
      exact absurd hvi (by decide)
    have hlast : lastValidRepoIdx segs = none := by
      unfold lastValidRepoIdx
      rw [hfilter]
      rfl
    simp [extractRelativePathSegs, hlast]

/-- Witness for the C10 theorem: a store path under
`/app/repositories/proj/` matches the pattern with remainder
`src/f.ts`; a path with a second, non-anchorable `repositories` segment
still extracts the regex's rightmost valid remainder; a path without
the marker falls back to its last two segments. -/
theorem extractRelativePathSegs_spec_witness :
    (∃ pres seg rests,
      (["", "app", "repositories", "proj", "src", "f.ts"] : List String)
        = pres ++ "repositories" :: seg :: rests ∧
      pres ≠ [] ∧ seg ≠ "" ∧ joinSegs rests ≠ "" ∧
      extractRelativePathSegs ["", "app", "repositories", "proj", "src", "f.ts"]
        = joinSegs rests ∧
      (∀ pres' seg' rests',
        (["", "app", "repositories", "proj", "src", "f.ts"] : List String)
          = pres' ++ "repositories" :: seg' :: rests' →
        pres' ≠ [] → seg' ≠ "" → joinSegs rests' ≠ "" →
        pres'.length ≤ pres.length)) ∧
    extractRelativePathSegs ["", "app", "repositories", "proj", "src", "f.ts"]
      = "src/f.ts" ∧
    (∃ pres seg rests,
      (["", "app", "repositories", "proj", "repositories", "user.ts"] : List String)
        = pres ++ "repositories" :: seg :: rests ∧
      pres ≠ [] ∧ seg ≠ "" ∧ joinSegs rests ≠ "" ∧
      extractRelativePathSegs
        ["", "app", "repositories", "proj", "repositories", "user.ts"]
        = joinSegs rests ∧
      (∀ pres' seg' rests',
        (["", "app", "repositories", "proj", "repositories", "user.ts"] : List String)
          = pres' ++ "repositories" :: seg' :: rests' →
        pres' ≠ [] → seg' ≠ "" → joinSegs rests' ≠ "" →
        pres'.length ≤ pres.length)) ∧
    extractRelativePathSegs
      ["", "app", "repositories", "proj", "repositories", "user.ts"]
      = "repositories/user.ts" ∧
    extractRelativePathSegs ["a", "b", "c"]
      = joinSegs (["a", "b", "c"].drop (3 - 2)) ∧
    joinSegs (["a", "b", "c"].drop (3 - 2)) = "b/c" :=
  ⟨extractRelativePathSegs_spec.1 ["", "app", "repositories", "proj", "src", "f.ts"]
      ⟨["", "app"], "proj", ["src", "f.ts"], rfl, by decide, by decide, by decide⟩,
   by decide,
   extractRelativePathSegs_spec.1
      ["", "app", "repositories", "proj", "repositories", "user.ts"]
      ⟨["", "app"], "proj", ["repositories", "user.ts"], rfl,
        by decide, by decide, by decide⟩,
   by decide,
   extractRelativePathSegs_spec.2 ["a", "b", "c"]
      (by
        rintro ⟨pres, seg, rests, heq, -, -, -⟩
        have hmem : "repositories" ∈ (["a", "b", "c"] : List String) := by
          rw [heq]
          simp
        simp at hmem),
   by decide⟩

end GitMcp
